import Mathlib

/-
Verification of the sync-command handling and missing-data fetch pipeline of
ndn_python_repo/handle/sync_command_handle.py (class SyncCommandHandle).

The embedding renders the handler's methods as pure state transformers that
additionally emit a trace of observable effects (participant creation and
start, storage writes, route registrations, fetch-primitive invocations).
External collaborators that live outside the translated file (the command
parser, hashlib.sha256, the concurrent fetcher's network results, the
pointer decoder parse_data / Name.from_bytes) are supplied through an
environment record `Env`, so every definition stays executable once an
environment is given.
-/

set_option autoImplicit false

namespace NDNRepo

/-- A name component: either a typed sequence-number component (as produced by
the sequence-indexed naming convention of the fetch primitive) or a generic
component.  `Component.to_number` mirrors ndn.encoding.Component.to_number on
sequence components; on generic components the model returns 0 (the pipeline
only applies it to sequence components). -/
inductive Component where
  | seq (n : Nat)
  | str (s : String)
  deriving DecidableEq

/-- A name is a list of components, as in ndn.encoding. -/
abbrev Name := List Component

/-- Raw byte blobs are modelled as lists of naturals. -/
abbrev Bytes := List Nat

def Component.to_number : Component → Nat
  | .seq n => n
  | .str _ => 0

def Component.to_str : Component → String
  | .seq n => "seq=" ++ toString n
  | .str s => s

/-- Model of ndn.encoding.Name.to_str: the normalized string form of a name,
used by the source as the key of the in-memory group table. -/
def Name.to_str (n : Name) : String :=
  "/" ++ String.intercalate "/" (n.map Component.to_str)

/-- Splitting a character list at every component separator. -/
def splitOnSlash : List Char → List Char → List String
  | acc, [] => [String.mk acc.reverse]
  | acc, c :: rest =>
      if c = '/' then String.mk acc.reverse :: splitOnSlash [] rest
      else splitOnSlash (c :: acc) rest

/-- Model of ndn.encoding.Name.from_str: split on the component separator,
dropping empty components. -/
def Name.from_str (s : String) : Name :=
  ((splitOnSlash [] s.toList).filter (fun t => t ≠ "")).map Component.str

/-- Association-list lookup, first binding wins (python dict lookup). -/
def lookupKV {κ α : Type} [DecidableEq κ] : List (κ × α) → κ → Option α
  | [], _ => none
  | (k', v) :: t, k => if k' = k then some v else lookupKV t k

/-- Association-list update: replace the binding in place if the key exists,
append otherwise (python dict assignment). -/
def setKV {κ α : Type} [DecidableEq κ] : List (κ × α) → κ → α → List (κ × α)
  | [], k, v => [(k, v)]
  | (k', v') :: t, k, v => if k' = k then (k, v) :: t else (k', v') :: setKV t k v

/-- Python's `d.get(k, 0)`. -/
def getKV (l : List (String × Nat)) (k : String) (d : Nat) : Nat :=
  (lookupKV l k).getD d

/-- One sync-group descriptor of a command (SyncParam of ..command).  The
wire schema lives outside the translated file; per the spec a descriptor
carries a required sync prefix, an optional register prefix and a dedupe
flag.  An absent optional name is modelled as the empty name, matching the
python falsiness tests `if not group.sync_prefix` / `if group.register_prefix`. -/
structure SyncParam where
  syncPrefix : Name
  registerPrefix : Name
  dataNameDedupe : Bool
  deriving DecidableEq

/-- RepoCommandParam of ..command: the ordered list of sync groups. -/
structure RepoCommandParam where
  syncGroups : List SyncParam
  deriving DecidableEq

/-- Per-group status entry of the cached response (SyncStatus of ..command). -/
structure SyncStatus where
  name : Name
  statusCode : Nat
  insertNum : Nat
  deriving DecidableEq

/-- Overall cached response (RepoCommandRes of ..command). -/
structure RepoCommandRes where
  statusCode : Nat
  syncGroups : List SyncStatus
  deriving DecidableEq

/-- Modelled from the spec: RepoStatCode lives in ..command, outside the
translated file.  The docstring of _process_sync says the immediate reply
carries status code 100; the exact numerals are irrelevant to the claims,
only that the two codes are fixed constants. -/
def RepoStatCode.ROGER : Nat := 100

/-- Modelled from the spec: the overall "accepted, work pending" status. -/
def RepoStatCode.IN_PROGRESS : Nat := 300

/-- The per-group record kept in states_on_disk and persisted by
add_sync_states_in_storage: fetched_dict, svs_client_states,
data_name_dedupe and check_status, exactly the keys written by
_process_sync.  The exported participant state is modelled as the
participant's local vector (see PassiveSvs.encodeIntoStates). -/
structure GroupStates where
  fetchedDict : List (String × Nat)
  svsClientStates : List (String × Nat)
  dataNameDedupe : Bool
  checkStatus : List (String × Nat)
  deriving DecidableEq

/-- The in-memory group table: normalized sync-prefix string to group record. -/
abbrev StatesMap := List (String × GroupStates)

/-- The freshly initialized group record written by _process_sync lines
106-111 and 119: empty progress, the exported state of a brand-new
participant (empty), the descriptor's dedupe flag and empty check status. -/
def newGroupStates (g : SyncParam) : GroupStates :=
  { fetchedDict := [], svsClientStates := [],
    dataNameDedupe := g.dataNameDedupe, checkStatus := [] }

/-- Modelled from the spec: PassiveSvs (in ..utils, outside the translated
file) is the Sync Participant — it exposes a base prefix and a local state
vector mapping producer identity to highest known sequence number, plus
state export/import for checkpointing. -/
structure PassiveSvs where
  basePrefix : Name
  localSv : List (String × Nat)
  deriving DecidableEq

/-- Modelled from the spec: the exported participant state is whatever is
sufficient to resume vector comparison after restart; the model exports the
local vector itself. -/
def PassiveSvs.encodeIntoStates (svs : PassiveSvs) : List (String × Nat) :=
  svs.localSv

/-- Modelled from the spec: state import, inverse of export. -/
def PassiveSvs.decodeFromStates (svs : PassiveSvs) (st : List (String × Nat)) : PassiveSvs :=
  { svs with localSv := st }

/-- The advancement callback wired into a participant.  Both _process_sync
and recover_from_states pass the same closure, scheduling
fetch_missing_data for that participant. -/
inductive Callback where
  | fetchMissingData
  deriving DecidableEq

/-- Naming convention argument of the concurrent fetcher (IdNamingConv of
..utils). -/
inductive IdNamingConv where
  | SEQUENCE
  | SEGMENT
  deriving DecidableEq

/-- Observable effects of the handler.  `fetch` records one invocation of the
concurrent fetcher with the arguments passed at the call site (an absent
optional argument is `none`, meaning the fetcher's default is used);
`persistStates` is one add_sync_states_in_storage write of a full group
record; `storePacket` is one storage.put_data_packet write. -/
inductive Event where
  | createParticipant (svs : PassiveSvs) (cb : Callback)
  | startParticipant (svs : PassiveSvs)
  | recordResponse (requestNo : Bytes) (stat : RepoCommandRes)
  | addRegisteredPrefix (n : Name)
  | listen (n : Name)
  | addSyncGroup (n : Name)
  | persistStates (base : Name) (states : GroupStates)
  | fetch (base : Name) (startId : Nat) (endId : Option Nat) (sem : Nat)
      (maxRetries : Option Int) (conv : Option IdNamingConv)
  | storePacket (n : Name) (b : Bytes)
  deriving DecidableEq

/-- Environment bundling the external collaborators: command parsing (a
DecodeError / IndexError raised while parsing is `none`), the sha256 digest,
the network contents delivered by the fetch primitive (content and raw bytes
per prefix and sequence number, plus the finite stream an unbounded
segment fetch yields before its natural end signal), and the fallible
pointer decoder (parse_data followed by Name.from_bytes; any TypeError /
IndexError / ValueError is `none`). -/
structure Env where
  parseCommandParam : Bytes → Option RepoCommandParam
  sha256 : Bytes → Bytes
  packetContent : Name → Nat → Bytes
  packetRaw : Name → Nat → Bytes
  unbounded : Name → List (Name × Bytes × Bytes)
  decodePointer : Bytes → Option Name

/-- The inclusive id range `[a, a+1, ..., a+n-1]` as delivered by the
sequence-indexed fetcher. -/
def seqIds : Nat → Nat → List Nat
  | _, 0 => []
  | a, n + 1 => a :: seqIds (a + 1) n

/-- The packets a bounded sequence-indexed fetch yields, in increasing
sequence order: name = base prefix plus one sequence component, with the
environment's content and raw bytes. -/
def seqPackets (env : Env) (base : Name) (a n : Nat) : List (Name × Bytes × Bytes) :=
  (seqIds a n).map (fun i =>
    (base ++ [Component.seq i], env.packetContent base i, env.packetRaw base i))

/-- Modelled from the spec: concurrent_fetcher of ..utils is the Fetch
Primitive — given a name prefix and a sequence range (or unbounded), it
produces a lazy order-preserving sequence of (name, content, raw bytes)
tuples; with infinite retry every id of a bounded range is eventually
delivered, and an unbounded fetch yields a finite stream ended by the
primitive's natural end signal. -/
def concurrentFetcher (env : Env) (base : Name) (startId : Nat) (endId : Option Nat) :
    List (Name × Bytes × Bytes) :=
  match endId with
  | some e => seqPackets env base startId (e + 1 - startId)
  | none => env.unbounded base

/-- The dedupe list comprehension of fetch_missing_data line 131:
`[i for n, i in enumerate(node_name) if i not in node_name[:n]]`.
The first argument accumulates the already-scanned prefix of the name. -/
def dedupeAux : List Component → List Component → List Component
  | _, [] => []
  | seen, c :: t =>
      if c ∈ seen then dedupeAux (seen ++ [c]) t else c :: dedupeAux (seen ++ [c]) t

def dedupeName (n : Name) : Name := dedupeAux [] n

/-- Lines 130-133 of fetch_missing_data: apply the dedupe transform when the
group's data_name_dedupe flag is set, else use the name unmodified. -/
def dataPrefixOf (flag : Bool) (nodeName : Name) : Name :=
  if flag then dedupeName nodeName else nodeName

/-- Following the spec's words only (for comparison with the source's
dedupe): keep the first occurrence of each component, drop later repeats,
preserve relative order. -/
def specFirstOccurrence (n : Name) : Name :=
  n.foldl (fun acc c => if c ∈ acc then acc else acc ++ [c]) []

/-- `Component.to_number(data_name[-1])` of line 145: the trailing sequence
component of a delivered packet name. -/
def seqLast (n : Name) : Nat :=
  Component.to_number (n.getLastD (Component.seq 0))

/-- The secondary, pointer-following part of the packet loop (lines
149-164): try to decode the fetched content as an inner data object whose
payload is a name; on failure this yields no events at all, on success one
unbounded fetch (start 0, no end, semaphore 10, default retries, default
naming) plus one storage write per yielded segment. -/
def pointerEvents (env : Env) (content : Bytes) : List Event :=
  match env.decodePointer content with
  | none => []
  | some obj =>
      Event.fetch obj 0 none 10 none none ::
        (concurrentFetcher env obj 0 none).map (fun s => Event.storePacket s.1 s.2.2)

/-- The body of the main packet loop (lines 142-164) for one delivered
packet: store the raw bytes under the packet name, advance fetched_dict for
this producer to the packet's trailing sequence component, re-export the
participant state, persist the full group record in one write, then run the
pointer-following step. -/
def processPacket (env : Env) (svs : PassiveSvs) (nodeId : String) (gs : GroupStates)
    (pkt : Name × Bytes × Bytes) : GroupStates × List Event :=
  let gs1 := { gs with fetchedDict := setKV gs.fetchedDict nodeId (seqLast pkt.1) }
  let gs2 := { gs1 with svsClientStates := svs.encodeIntoStates }
  (gs2,
    Event.storePacket pkt.1 pkt.2.2 ::
      Event.persistStates svs.basePrefix gs2 ::
        pointerEvents env pkt.2.1)

/-- Fold of processPacket over a stream of delivered packets, accumulating
the group record and the emitted events. -/
def foldPackets (env : Env) (svs : PassiveSvs) (nodeId : String) :
    GroupStates × List Event → List (Name × Bytes × Bytes) → GroupStates × List Event
  | acc, [] => acc
  | acc, pkt :: rest =>
      let r := processPacket env svs nodeId acc.1 pkt
      foldPackets env svs nodeId (r.1, acc.2 ++ r.2) rest

/-- One iteration of fetch_missing_data's loop over the local-vector
snapshot (lines 124-164), for one (producer, advertised sequence) pair.
Looks up the group record (a missing record is the uncaught KeyError of
line 125, modelled as `none`), computes the producer's data prefix, and if
the recorded fetched sequence (default 0) is below the advertised one,
invokes the fetcher for the range fetched+1..advertised with semaphore 10,
sequence naming and max_retries = -1, folding the packet loop over the
delivered stream. -/
def processNode (env : Env) (svs : PassiveSvs) (m : StatesMap) (node : String × Nat) :
    Option (StatesMap × List Event) :=
  match lookupKV m (Name.to_str svs.basePrefix) with
  | none => none
  | some gs =>
      let fetchedSeq := getKV gs.fetchedDict node.1 0
      let nodeName := Name.from_str node.1 ++ svs.basePrefix
      let dataPfx := dataPrefixOf gs.dataNameDedupe nodeName
      if fetchedSeq < node.2 then
        let r := foldPackets env svs node.1 (gs, [])
          (concurrentFetcher env dataPfx (fetchedSeq + 1) (some node.2))
        some (setKV m (Name.to_str svs.basePrefix) r.1,
          Event.fetch dataPfx (fetchedSeq + 1) (some node.2) 10 (some (-1))
              (some IdNamingConv.SEQUENCE) :: r.2)
      else
        some (m, [])

/-- Sequential iteration of processNode over the snapshot entries. -/
def runNodes (env : Env) (svs : PassiveSvs) :
    Option (StatesMap × List Event) → List (String × Nat) → Option (StatesMap × List Event)
  | none, _ => none
  | some acc, [] => some acc
  | some acc, node :: rest =>
      match processNode env svs acc.1 node with
      | none => none
      | some r => runNodes env svs (some (r.1, acc.2 ++ r.2)) rest

/-- One full pass of fetch_missing_data over a participant's local-vector
snapshot. -/
def fetchMissingData (env : Env) (svs : PassiveSvs) (m : StatesMap) :
    Option (StatesMap × List Event) :=
  runNodes env svs (some (m, [])) svs.localSv

/-- In-memory handler state: the group table states_on_disk, the cached
response table m_processes, plus the durable registered-prefix set that
add_registered_prefix_in_storage consults, and the register_root
configuration flag. -/
structure HandleState where
  statesOnDisk : StatesMap
  mProcesses : List (Bytes × RepoCommandRes)
  registeredPrefixes : List Name
  registerRoot : Bool
  deriving DecidableEq

/-- _init_sync_stat of _process_sync (lines 85-90). -/
def initSyncStat (g : SyncParam) : SyncStatus :=
  { name := g.syncPrefix, statusCode := RepoStatCode.ROGER, insertNum := 0 }

/-- The register-prefix handling of lines 113-117, as events: the storage
set of registered prefixes is always consulted and written, and listen is
only called when the repo does not register the root prefix and the prefix
was not registered before. -/
def registerEvents (registerRoot isExisting : Bool) (rp : Name) : List Event :=
  if rp ≠ ([] : Name) then
    Event.addRegisteredPrefix rp ::
      (if registerRoot = false ∧ isExisting = false then [Event.listen rp] else [])
  else []

/-- The per-group body of _process_sync's loop (lines 98-120): skip when the
normalized prefix is already in the group table; otherwise create and start
a participant with the fetch_missing_data callback, initialize the group
record, handle the optional register prefix (the durable registered set is
consulted first; listen is only called when the repo does not register the
root prefix and the prefix is newly registered), record the sync group in
storage, export the initial participant state into the record and persist
it. -/
def processGroup (st : HandleState) (tr : List Event) (g : SyncParam) :
    HandleState × List Event :=
  if (lookupKV st.statesOnDisk (Name.to_str g.syncPrefix)).isSome then
    (st, tr)
  else
    let newSvs : PassiveSvs := { basePrefix := g.syncPrefix, localSv := [] }
    let newStates0 : GroupStates :=
      { fetchedDict := [], svsClientStates := [],
        dataNameDedupe := g.dataNameDedupe, checkStatus := [] }
    let st1 :=
      { st with
        statesOnDisk := setKV st.statesOnDisk (Name.to_str g.syncPrefix) newStates0 }
    let isExisting := decide (g.registerPrefix ∈ st1.registeredPrefixes)
    let st2 :=
      if g.registerPrefix ≠ ([] : Name) ∧ isExisting = false then
        { st1 with registeredPrefixes := st1.registeredPrefixes ++ [g.registerPrefix] }
      else st1
    let regEvents := registerEvents st1.registerRoot isExisting g.registerPrefix
    let newStates1 := { newStates0 with svsClientStates := newSvs.encodeIntoStates }
    let st3 :=
      { st2 with
        statesOnDisk := setKV st2.statesOnDisk (Name.to_str g.syncPrefix) newStates1 }
    (st3,
      tr ++ Event.createParticipant newSvs Callback.fetchMissingData ::
        Event.startParticipant newSvs :: regEvents ++
          [Event.addSyncGroup g.syncPrefix, Event.persistStates g.syncPrefix newStates1])

/-- The cached response _process_sync builds (lines 92-95): overall status
IN_PROGRESS with one ROGER, insert-count-0 entry per group. -/
def statFor (groups : List SyncParam) : RepoCommandRes :=
  { statusCode := RepoStatCode.IN_PROGRESS, syncGroups := groups.map initSyncStat }

/-- _process_sync (lines 75-120): cache the IN_PROGRESS response with one
ROGER entry per group under the request number, then run the per-group
creation loop. -/
def processSync (st : HandleState) (groups : List SyncParam) (requestNo : Bytes) :
    HandleState × List Event :=
  let stat := statFor groups
  let st1 := { st with mProcesses := setKV st.mProcesses requestNo stat }
  groups.foldl (fun acc g => processGroup acc.1 acc.2 g)
    (st1, [Event.recordResponse requestNo stat])

/-- A command is treated as a decode failure when it has no sync groups or
some group lacks a sync prefix (lines 65-69). -/
def malformedCommand (cmd : RepoCommandParam) : Bool :=
  cmd.syncGroups.isEmpty || cmd.syncGroups.any (fun g => g.syncPrefix.isEmpty)

/-- _on_sync_msg (lines 61-73): parse the payload; on parse failure or a
malformed command the exception is caught and the message dropped with no
effect; otherwise hash the raw payload with sha256 and run _process_sync. -/
def onSyncMsg (env : Env) (st : HandleState) (msg : Bytes) : HandleState × List Event :=
  match env.parseCommandParam msg with
  | none => (st, [])
  | some cmd =>
      if malformedCommand cmd then (st, [])
      else processSync st cmd.syncGroups (env.sha256 msg)

/-- The per-record body of recover_from_states (lines 53-59): rebuild a
participant for the group key with the fetch_missing_data callback, import
the saved participant state, and start it. -/
def recoverGroup (kv : String × GroupStates) : List Event :=
  let svs0 : PassiveSvs := { basePrefix := Name.from_str kv.1, localSv := [] }
  let svs1 := svs0.decodeFromStates kv.2.svsClientStates
  [Event.createParticipant svs1 Callback.fetchMissingData, Event.startParticipant svs1]

/-- recover_from_states (lines 50-59): install the persisted map as the
group table and recreate and start one participant per record. -/
def recoverFromStates (st : HandleState) (states : StatesMap) : HandleState × List Event :=
  ({ st with statesOnDisk := states },
    states.foldl (fun tr kv => tr ++ recoverGroup kv) [])

/-- Event classifiers used by the claims. -/
def Event.isRangeFetch : Event → Bool
  | .fetch _ _ (some _) _ _ _ => true
  | _ => false

def Event.isFetch : Event → Bool
  | .fetch _ _ _ _ _ _ => true
  | _ => false

def Event.isPersist : Event → Bool
  | .persistStates _ _ => true
  | _ => false

def Event.isStore : Event → Bool
  | .storePacket _ _ => true
  | _ => false

def Event.isCreate : Event → Bool
  | .createParticipant _ _ => true
  | _ => false

/-- Everything except the cached-response bookkeeping counts as an
observable side effect of a submission. -/
def Event.isSideEffect : Event → Bool
  | .recordResponse _ _ => false
  | _ => true

/-- Writes to the Persistent State Store: data packets, group records,
registered prefixes and the sync-group set. -/
def Event.isStorageWrite : Event → Bool
  | .persistStates _ _ => true
  | .storePacket _ _ => true
  | .addRegisteredPrefix _ => true
  | .addSyncGroup _ => true
  | _ => false

/-- The group records persisted for one group key along a trace, in order. -/
def persistsFor (key : String) (tr : List Event) : List GroupStates :=
  tr.filterMap (fun e =>
    match e with
    | .persistStates base gs => if Name.to_str base = key then some gs else none
    | _ => none)

/-- The successive values of fetched_dict[nodeId] carried by the persisted
records of one group, in trace order. -/
def persistedVals (key nodeId : String) (tr : List Event) : List Nat :=
  tr.filterMap (fun e =>
    match e with
    | .persistStates base gs =>
        if Name.to_str base = key then some (getKV gs.fetchedDict nodeId 0) else none
    | _ => none)

/-- The recorded fetched sequence for a producer of a group in a group
table (0 when the group or the producer is absent). -/
def initFetched (m : StatesMap) (key nodeId : String) : Nat :=
  match lookupKV m key with
  | some gs => getKV gs.fetchedDict nodeId 0
  | none => 0

/-
Interleaved semantics of fetch_missing_data, used to analyse concurrent
pipeline passes.  The advancement callback (line 54 and line 103) wraps
every firing in aio.create_task with no per-group guard, so two passes for
the same group can be in flight together; under cooperative scheduling
their code between awaits is atomic.  A pass suspends when it enters the
async-for of the concurrent fetcher and between successive packet
deliveries, so its atomic steps are: one loop iteration up to issuing the
range fetch (lines 124-141), one packet-loop body per delivered packet
(lines 142-164), and loop bookkeeping.  PassSt is the continuation of one
pass between suspensions.
-/
inductive PassSt where
  | ready (sv : List (String × Nat))
  | streaming (nodeId : String) (dataPfx : Name) (pending : List Nat)
      (sv : List (String × Nat))
  | finished
  deriving DecidableEq

/-- One atomic step of a pass against the shared group record. -/
def passStep (env : Env) (svs : PassiveSvs) (gs : GroupStates) :
    PassSt → GroupStates × List Event × PassSt
  | .ready [] => (gs, [], .finished)
  | .ready ((p, s) :: rest) =>
      let fetchedSeq := getKV gs.fetchedDict p 0
      let nodeName := Name.from_str p ++ svs.basePrefix
      let dataPfx := dataPrefixOf gs.dataNameDedupe nodeName
      if fetchedSeq < s then
        (gs,
          [Event.fetch dataPfx (fetchedSeq + 1) (some s) 10 (some (-1))
            (some IdNamingConv.SEQUENCE)],
          .streaming p dataPfx (seqIds (fetchedSeq + 1) (s - fetchedSeq)) rest)
      else (gs, [], .ready rest)
  | .streaming _ _ [] rest => (gs, [], .ready rest)
  | .streaming p dataPfx (i :: pending) rest =>
      let pkt := (dataPfx ++ [Component.seq i],
        env.packetContent dataPfx i, env.packetRaw dataPfx i)
      let r := processPacket env svs p gs pkt
      (r.1, r.2, .streaming p dataPfx pending rest)
  | .finished => (gs, [], .finished)

/-- Run two concurrent passes over the shared record of one group under a
schedule: `true` steps the first pass, `false` the second. -/
def runInterleaved (env : Env) (svs1 svs2 : PassiveSvs) :
    GroupStates → PassSt → PassSt → List Bool → GroupStates × List Event
  | gs, _, _, [] => (gs, [])
  | gs, p1, p2, true :: sched =>
      let r := passStep env svs1 gs p1
      let rest := runInterleaved env svs1 svs2 r.1 r.2.2 p2 sched
      (rest.1, r.2.1 ++ rest.2)
  | gs, p1, p2, false :: sched =>
      let r := passStep env svs2 gs p2
      let rest := runInterleaved env svs1 svs2 r.1 p1 r.2.2 sched
      (rest.1, r.2.1 ++ rest.2)

/-- Sequential composition of pipeline passes: each pass runs
fetch_missing_data to completion before the next begins. -/
def runPasses (env : Env) :
    Option (StatesMap × List Event) → List PassiveSvs → Option (StatesMap × List Event)
  | none, _ => none
  | some acc, [] => some acc
  | some acc, svs :: rest =>
      match fetchMissingData env svs acc.1 with
      | none => none
      | some r => runPasses env (some (r.1, acc.2 ++ r.2)) rest

/-- The group record after the packet for sequence number i of one producer
has been processed: progress advanced to i and the participant state
re-exported, everything else unchanged. -/
def advancedGS (svs : PassiveSvs) (nodeId : String) (gs : GroupStates) (i : Nat) : GroupStates :=
  { fetchedDict := setKV gs.fetchedDict nodeId i,
    svsClientStates := svs.encodeIntoStates,
    dataNameDedupe := gs.dataNameDedupe,
    checkStatus := gs.checkStatus }

/-- The event trace the packet loop emits for the deliveries a .. a+n-1 of
one producer: store, persist and pointer-following events per packet, in
sequence order. -/
def seqTrace (env : Env) (svs : PassiveSvs) (nodeId : String) (gs : GroupStates)
    (dataPfx : Name) : Nat → Nat → List Event
  | _, 0 => []
  | a, n + 1 =>
      Event.storePacket (dataPfx ++ [Component.seq a]) (env.packetRaw dataPfx a) ::
        Event.persistStates svs.basePrefix (advancedGS svs nodeId gs a) ::
          (pointerEvents env (env.packetContent dataPfx a) ++
            seqTrace env svs nodeId gs dataPfx (a + 1) n)

/-- Store-before-bookkeeping discipline of a trace: it consists of events
that persist nothing, and of adjacent pairs where one packet is stored and
the full group record is persisted immediately afterwards, carrying a
progress entry equal to the stored packet's trailing sequence number
together with the re-exported participant state enc. -/
inductive PersistsOk (enc : List (String × Nat)) : List Event → Prop
  | nil : PersistsOk enc []
  | consSafe (e : Event) (tr : List Event) :
      Event.isPersist e = false → PersistsOk enc tr → PersistsOk enc (e :: tr)
  | consPair (n : Name) (b : Bytes) (base : Name) (gs : GroupStates) (tr : List Event) :
      (∃ q, lookupKV gs.fetchedDict q = some (seqLast n)) →
      gs.svsClientStates = enc →
      PersistsOk enc tr →
      PersistsOk enc (Event.storePacket n b :: Event.persistStates base gs :: tr)

/-- The progress entry for one producer of the group keyed key never
regresses along the trace tr, which leads from table m to table m'. -/
def MonoAt (key nodeId : String) (m m' : StatesMap) (tr : List Event) : Prop :=
  List.Chain' (· ≤ ·) (initFetched m key nodeId :: persistedVals key nodeId tr) ∧
  initFetched m' key nodeId = (persistedVals key nodeId tr).getLastD (initFetched m key nodeId)

/-
Concrete inputs on which the model is evaluated.
-/

/-- An environment with empty network content, an unparsable command
payload, a prefixed-byte digest and a pointer decoder that never succeeds. -/
def envBasic : Env :=
  { parseCommandParam := fun _ => none
    sha256 := fun b => 0 :: b
    packetContent := fun _ _ => []
    packetRaw := fun _ i => [i]
    unbounded := fun _ => []
    decodePointer := fun _ => none }

def grpName : Name := [Component.str "grp"]

def gsInit : GroupStates :=
  { fetchedDict := [], svsClientStates := [], dataNameDedupe := false, checkStatus := [] }

/-- A persisted record with fetchedSeq[p] = 3, the spec's recovery example. -/
def gsP3 : GroupStates := { gsInit with fetchedDict := [("p", 3)] }

def mapP3 : StatesMap := [("/grp", gsP3)]

/-- A participant snapshot advertising p at sequence 7. -/
def svsP7 : PassiveSvs := { basePrefix := grpName, localSv := [("p", 7)] }

/-- First racing pass: snapshot taken when p advertised 4. -/
def svsAdv4 : PassiveSvs := { basePrefix := grpName, localSv := [("p", 4)] }

/-- Second racing pass: snapshot taken when p advertised 7. -/
def svsAdv7 : PassiveSvs := { basePrefix := grpName, localSv := [("p", 7)] }

/-- Schedule: pass 1 issues its range fetch and receives packet 1; pass 2
then runs to completion of its deliveries (range 2..7); pass 1 resumes with
its delivery of packet 2. -/
def schedRace : List Bool := [true, true] ++ List.replicate 7 false ++ [true]

def handleInit : HandleState :=
  { statesOnDisk := [], mProcesses := [], registeredPrefixes := [], registerRoot := false }

def gSimple : SyncParam :=
  { syncPrefix := [Component.str "g"], registerPrefix := [], dataNameDedupe := false }

/-- A handler state whose group table already holds gSimple's prefix. -/
def handleDup : HandleState :=
  { handleInit with statesOnDisk := [("/g", newGroupStates gSimple)] }

/-- An environment whose command payloads parse to an empty group list. -/
def envEmptyCmd : Env :=
  { envBasic with parseCommandParam := fun _ => some { syncGroups := [] } }

/-- An environment whose command payloads parse to one well-formed group. -/
def envOneCmd : Env :=
  { envBasic with parseCommandParam := fun _ => some { syncGroups := [gSimple] } }

/-- An environment where every fetched packet carries a pointer payload and
the secondary unbounded fetch yields two segments. -/
def envPointer : Env :=
  { envBasic with
    packetContent := fun _ _ => [7]
    decodePointer := fun b => if b = [7] then some [Component.str "obj"] else none
    unbounded := fun _ =>
      [([Component.str "obj", Component.seq 0], [], [40]),
       ([Component.str "obj", Component.seq 1], [], [41])] }

/-
Association-list lemmas.
-/

theorem lookupKV_setKV_self {κ α : Type} [DecidableEq κ] (l : List (κ × α)) (k : κ) (v : α) :
    lookupKV (setKV l k v) k = some v := by
  induction l with
  | nil => simp [setKV, lookupKV]
  | cons kv t ih =>
      obtain ⟨k', v'⟩ := kv
      by_cases h : k' = k
      · simp [setKV, lookupKV, h]
      · simp [setKV, lookupKV, h, ih]

theorem lookupKV_setKV_ne {κ α : Type} [DecidableEq κ] (l : List (κ × α)) (k k' : κ) (v : α)
    (h : k' ≠ k) : lookupKV (setKV l k v) k' = lookupKV l k' := by
  have hk : k ≠ k' := fun hh => h hh.symm
  induction l with
  | nil => simp [setKV, lookupKV, hk]
  | cons kv t ih =>
      obtain ⟨k₀, v₀⟩ := kv
      by_cases h₀ : k₀ = k
      · subst h₀
        simp [setKV, lookupKV, hk]
      · simp only [setKV, if_neg h₀, lookupKV]
        by_cases h₁ : k₀ = k'
        · simp [h₁]
        · simp [h₁, ih]

theorem setKV_setKV {κ α : Type} [DecidableEq κ] (l : List (κ × α)) (k : κ) (v w : α) :
    setKV (setKV l k v) k w = setKV l k w := by
  induction l with
  | nil => simp [setKV]
  | cons kv t ih =>
      obtain ⟨k₀, v₀⟩ := kv
      by_cases h : k₀ = k
      · simp [setKV, h]
      · simp [setKV, h, ih]

theorem setKV_self_of_lookup {κ α : Type} [DecidableEq κ] (l : List (κ × α)) (k : κ) (v : α)
    (h : lookupKV l k = some v) : setKV l k v = l := by
  induction l with
  | nil => simp [lookupKV] at h
  | cons kv t ih =>
      obtain ⟨k₀, v₀⟩ := kv
      by_cases h₀ : k₀ = k
      · subst h₀
        simp [lookupKV] at h
        simp [setKV, h]
      · simp [lookupKV, h₀] at h
        simp [setKV, h₀, ih h]

theorem getKV_setKV_self (l : List (String × Nat)) (k : String) (v d : Nat) :
    getKV (setKV l k v) k d = v := by
  simp [getKV, lookupKV_setKV_self]

theorem getKV_setKV_ne (l : List (String × Nat)) (k k' : String) (v d : Nat) (h : k' ≠ k) :
    getKV (setKV l k v) k' d = getKV l k' d := by
  simp [getKV, lookupKV_setKV_ne l k k' v h]

/-
Sequence-range lemmas.
-/

theorem seqLast_concat (l : Name) (i : Nat) : seqLast (l ++ [Component.seq i]) = i := by
  simp [seqLast, List.getLastD_concat, Component.to_number]

theorem seqIds_succ (a n : Nat) : seqIds a (n + 1) = a :: seqIds (a + 1) n := rfl

theorem seqIds_getLastD (n : Nat) : ∀ a d : Nat, (seqIds a (n + 1)).getLastD d = a + n := by
  induction n with
  | zero => intro a d; simp [seqIds]
  | succ n ih =>
      intro a d
      rw [seqIds_succ, List.getLastD_cons, ih (a + 1) a]
      omega

theorem chain_seqIds (n : Nat) : ∀ v : Nat, List.Chain' (· ≤ ·) (v :: seqIds (v + 1) n) := by
  induction n with
  | zero => intro v; simp [seqIds]
  | succ n ih =>
      intro v
      rw [seqIds_succ, List.chain'_cons]
      exact ⟨Nat.le_succ v, ih (v + 1)⟩

theorem chain_cons_replicate (n v : Nat) :
    List.Chain' (· ≤ ·) (v :: List.replicate n v) := by
  induction n with
  | zero => simp
  | succ n ih =>
      rw [List.replicate_succ, List.chain'_cons]
      exact ⟨le_refl v, ih⟩

theorem getLastD_replicate (n v : Nat) : (List.replicate n v).getLastD v = v := by
  induction n with
  | zero => simp
  | succ n ih => rw [List.replicate_succ, List.getLastD_cons, ih]

theorem seqIds_map_const {α : Type} (f : Nat → α) (v : α) (hf : ∀ i, f i = v) :
    ∀ n a, (seqIds a n).map f = List.replicate n v := by
  intro n
  induction n with
  | zero => intro a; simp [seqIds]
  | succ n ih => intro a; rw [seqIds_succ]; simp [hf a, ih (a + 1), List.replicate_succ]

theorem seqIds_map_id (f : Nat → Nat) (hf : ∀ i, f i = i) :
    ∀ n a, (seqIds a n).map f = seqIds a n := by
  intro n
  induction n with
  | zero => intro a; simp [seqIds]
  | succ n ih => intro a; rw [seqIds_succ]; simp [hf a, ih (a + 1)]

/-
Trace lemmas.
-/

theorem pointerEvents_no_persist (env : Env) (c : Bytes) :
    ∀ e ∈ pointerEvents env c, Event.isPersist e = false := by
  unfold pointerEvents
  cases env.decodePointer c with
  | none => simp
  | some obj =>
      intro e he
      simp only [List.mem_cons, List.mem_map] at he
      rcases he with rfl | ⟨s, _, rfl⟩
      · rfl
      · rfl

theorem pointerEvents_no_range_fetch (env : Env) (c : Bytes) :
    ∀ e ∈ pointerEvents env c, Event.isRangeFetch e = false := by
  unfold pointerEvents
  cases env.decodePointer c with
  | none => simp
  | some obj =>
      intro e he
      simp only [List.mem_cons, List.mem_map] at he
      rcases he with rfl | ⟨s, _, rfl⟩
      · rfl
      · rfl

theorem persistedVals_append (key p : String) (t1 t2 : List Event) :
    persistedVals key p (t1 ++ t2) = persistedVals key p t1 ++ persistedVals key p t2 := by
  simp [persistedVals, List.filterMap_append]

theorem persistedVals_cons_other (key p : String) (e : Event) (t : List Event)
    (he : Event.isPersist e = false) :
    persistedVals key p (e :: t) = persistedVals key p t := by
  cases e <;> first | rfl | simp [Event.isPersist] at he

theorem persistedVals_cons_persist (key p : String) (base : Name) (gs : GroupStates)
    (t : List Event) :
    persistedVals key p (Event.persistStates base gs :: t) =
      (if Name.to_str base = key then [getKV gs.fetchedDict p 0] else []) ++
        persistedVals key p t := by
  by_cases h : Name.to_str base = key <;>
    simp [persistedVals, List.filterMap_cons, h]

theorem persistedVals_cons_store (key p : String) (n : Name) (b : Bytes) (t : List Event) :
    persistedVals key p (Event.storePacket n b :: t) = persistedVals key p t := rfl

theorem persistedVals_cons_fetch (key p : String) (base : Name) (s : Nat)
    (e : Option Nat) (sem : Nat) (r : Option Int) (c : Option IdNamingConv)
    (t : List Event) :
    persistedVals key p (Event.fetch base s e sem r c :: t) = persistedVals key p t := rfl

theorem persistedVals_of_no_persist (key p : String) (tr : List Event)
    (h : ∀ e ∈ tr, Event.isPersist e = false) : persistedVals key p tr = [] := by
  induction tr with
  | nil => rfl
  | cons e t ih =>
      rw [persistedVals_cons_other key p e t (h e (List.mem_cons_self e t))]
      exact ih (fun e' he' => h e' (List.mem_cons_of_mem e he'))

theorem filter_rangeFetch_append (t1 t2 : List Event) :
    (t1 ++ t2).filter Event.isRangeFetch =
      t1.filter Event.isRangeFetch ++ t2.filter Event.isRangeFetch :=
  List.filter_append t1 t2

theorem filter_rangeFetch_of_none (tr : List Event)
    (h : ∀ e ∈ tr, Event.isRangeFetch e = false) : tr.filter Event.isRangeFetch = [] := by
  induction tr with
  | nil => rfl
  | cons e t ih =>
      rw [List.filter_cons, if_neg (by simp [h e (List.mem_cons_self e t)])]
      exact ih (fun e' he' => h e' (List.mem_cons_of_mem e he'))

theorem advancedGS_advancedGS (svs : PassiveSvs) (nodeId : String) (gs : GroupStates)
    (i j : Nat) :
    advancedGS svs nodeId (advancedGS svs nodeId gs i) j = advancedGS svs nodeId gs j := by
  simp [advancedGS, setKV_setKV]

theorem seqTrace_advancedGS (env : Env) (svs : PassiveSvs) (nodeId : String)
    (gs : GroupStates) (dataPfx : Name) (i : Nat) :
    ∀ n a, seqTrace env svs nodeId (advancedGS svs nodeId gs i) dataPfx a n =
      seqTrace env svs nodeId gs dataPfx a n := by
  intro n
  induction n with
  | zero => intro a; rfl
  | succ n ih => intro a; simp [seqTrace, advancedGS_advancedGS, ih (a + 1)]

theorem foldPackets_eq (env : Env) (svs : PassiveSvs) (nodeId : String) (dataPfx : Name) :
    ∀ (n a : Nat) (gs : GroupStates) (tr0 : List Event),
      foldPackets env svs nodeId (gs, tr0) (seqPackets env dataPfx a n) =
        ((if n = 0 then gs else advancedGS svs nodeId gs (a + n - 1)),
          tr0 ++ seqTrace env svs nodeId gs dataPfx a n) := by
  intro n
  induction n with
  | zero => intro a gs tr0; simp [seqPackets, seqIds, foldPackets, seqTrace]
  | succ n ih =>
      intro a gs tr0
      have hpk : seqPackets env dataPfx a (n + 1) =
          (dataPfx ++ [Component.seq a], env.packetContent dataPfx a,
            env.packetRaw dataPfx a) :: seqPackets env dataPfx (a + 1) n := by
        simp [seqPackets, seqIds_succ]
      have hr : processPacket env svs nodeId gs
          (dataPfx ++ [Component.seq a], env.packetContent dataPfx a,
            env.packetRaw dataPfx a) =
          (advancedGS svs nodeId gs a,
            Event.storePacket (dataPfx ++ [Component.seq a]) (env.packetRaw dataPfx a) ::
              Event.persistStates svs.basePrefix (advancedGS svs nodeId gs a) ::
                pointerEvents env (env.packetContent dataPfx a)) := by
        simp [processPacket, advancedGS, seqLast_concat]
      rw [hpk, foldPackets, hr]
      rw [ih (a + 1) (advancedGS svs nodeId gs a) _]
      rw [seqTrace_advancedGS, advancedGS_advancedGS]
      cases n with
      | zero =>
          simp [seqTrace, List.append_assoc]
      | succ n' =>
          have h1 : a + 1 + (n' + 1) - 1 = a + (n' + 1 + 1) - 1 := by omega
          simp [h1, seqTrace, List.append_assoc]

/-- Closed form of one loop iteration of fetch_missing_data when the group
record is present. -/
theorem processNode_eq (env : Env) (svs : PassiveSvs) (m : StatesMap)
    (node : String × Nat) (gs : GroupStates)
    (hgs : lookupKV m (Name.to_str svs.basePrefix) = some gs) :
    processNode env svs m node =
      (if getKV gs.fetchedDict node.1 0 < node.2 then
        some (setKV m (Name.to_str svs.basePrefix) (advancedGS svs node.1 gs node.2),
          Event.fetch (dataPrefixOf gs.dataNameDedupe (Name.from_str node.1 ++ svs.basePrefix))
              (getKV gs.fetchedDict node.1 0 + 1) (some node.2) 10 (some (-1))
              (some IdNamingConv.SEQUENCE) ::
            seqTrace env svs node.1 gs
              (dataPrefixOf gs.dataNameDedupe (Name.from_str node.1 ++ svs.basePrefix))
              (getKV gs.fetchedDict node.1 0 + 1) (node.2 - getKV gs.fetchedDict node.1 0))
      else some (m, [])) := by
  simp only [processNode, hgs]
  by_cases hf : getKV gs.fetchedDict node.1 0 < node.2
  · rw [if_pos hf, if_pos hf]
    have hn : node.2 + 1 - (getKV gs.fetchedDict node.1 0 + 1) =
        node.2 - getKV gs.fetchedDict node.1 0 := by omega
    have hnz : node.2 - getKV gs.fetchedDict node.1 0 ≠ 0 := by omega
    have ha : getKV gs.fetchedDict node.1 0 + 1 + (node.2 - getKV gs.fetchedDict node.1 0) - 1
        = node.2 := by omega
    rw [concurrentFetcher, hn,
      foldPackets_eq env svs node.1 _ (node.2 - getKV gs.fetchedDict node.1 0)
        (getKV gs.fetchedDict node.1 0 + 1) gs [],
      if_neg hnz, ha]
    simp
  · rw [if_neg hf, if_neg hf]

theorem runNodes_none (env : Env) (svs : PassiveSvs) (nodes : List (String × Nat)) :
    runNodes env svs none nodes = none := by
  cases nodes <;> rfl

theorem runNodes_nil (env : Env) (svs : PassiveSvs) (a : StatesMap × List Event) :
    runNodes env svs (some a) [] = some a := rfl

theorem runNodes_cons (env : Env) (svs : PassiveSvs) (m : StatesMap) (tr0 : List Event)
    (node : String × Nat) (rest : List (String × Nat)) :
    runNodes env svs (some (m, tr0)) (node :: rest) =
      (match processNode env svs m node with
       | none => none
       | some r => runNodes env svs (some (r.1, tr0 ++ r.2)) rest) := rfl

/-- runNodes distributes over list append. -/
theorem runNodes_append (env : Env) (svs : PassiveSvs)
    (acc : Option (StatesMap × List Event)) (xs ys : List (String × Nat)) :
    runNodes env svs acc (xs ++ ys) = runNodes env svs (runNodes env svs acc xs) ys := by
  induction xs generalizing acc with
  | nil =>
      cases acc with
      | none => rw [runNodes_none, runNodes_none, runNodes_none]
      | some a => rfl
  | cons x t ih =>
      cases acc with
      | none => rw [runNodes_none, runNodes_none, runNodes_none]
      | some a =>
          obtain ⟨m, tr0⟩ := a
          rw [List.cons_append, runNodes_cons, runNodes_cons]
          cases hpn : processNode env svs m x with
          | none => rw [runNodes_none]
          | some r => exact ih (some (r.1, tr0 ++ r.2))

/-- runNodes only ever appends to the accumulated trace. -/
theorem runNodes_trace (env : Env) (svs : PassiveSvs) (m : StatesMap) (tr0 : List Event)
    (nodes : List (String × Nat)) :
    runNodes env svs (some (m, tr0)) nodes =
      (runNodes env svs (some (m, [])) nodes).map (fun r => (r.1, tr0 ++ r.2)) := by
  induction nodes generalizing m tr0 with
  | nil => simp [runNodes_nil]
  | cons node t ih =>
      rw [runNodes_cons, runNodes_cons]
      cases hpn : processNode env svs m node with
      | none => rfl
      | some r =>
          simp only []
          rw [ih r.1 (tr0 ++ r.2), ih r.1 ([] ++ r.2)]
          cases runNodes env svs (some (r.1, [])) t with
          | none => rfl
          | some r' => simp [List.append_assoc]

/-
The dedupe comprehension agrees with the spec's first-occurrence transform.
-/

theorem dedupeAux_foldl (l : List Component) :
    ∀ seen acc : List Component, (∀ x, x ∈ seen ↔ x ∈ acc) →
      l.foldl (fun acc c => if c ∈ acc then acc else acc ++ [c]) acc =
        acc ++ dedupeAux seen l := by
  induction l with
  | nil => intro seen acc _; simp [dedupeAux]
  | cons c t ih =>
      intro seen acc hiff
      by_cases hc : c ∈ seen
      · have hc' : c ∈ acc := (hiff c).1 hc
        rw [List.foldl_cons, if_pos hc']
        rw [show dedupeAux seen (c :: t) = dedupeAux (seen ++ [c]) t from by
          simp [dedupeAux, hc]]
        refine ih (seen ++ [c]) acc (fun x => ?_)
        constructor
        · intro hx
          rcases List.mem_append.1 hx with hx | hx
          · exact (hiff x).1 hx
          · simp only [List.mem_singleton] at hx
            subst hx
            exact hc'
        · intro hx
          exact List.mem_append.2 (Or.inl ((hiff x).2 hx))
      · have hc' : c ∉ acc := fun h => hc ((hiff c).2 h)
        rw [List.foldl_cons, if_neg hc']
        rw [show dedupeAux seen (c :: t) = c :: dedupeAux (seen ++ [c]) t from by
          simp [dedupeAux, hc]]
        rw [ih (seen ++ [c]) (acc ++ [c]) (fun x => by
          simp only [List.mem_append, List.mem_singleton]
          constructor
          · rintro (hx | hx)
            · exact Or.inl ((hiff x).1 hx)
            · exact Or.inr hx
          · rintro (hx | hx)
            · exact Or.inl ((hiff x).2 hx)
            · exact Or.inr hx)]
        simp

theorem specFirstOccurrence_eq_dedupe (n : Name) : specFirstOccurrence n = dedupeName n := by
  have h := dedupeAux_foldl n [] [] (fun x => by simp)
  simpa [specFirstOccurrence, dedupeName] using h

/-
Claims.
-/

/-- C7: when a group's dataNameDedupe flag is set, the producer's base
fetch name is transformed by keeping only the first occurrence of each
component and dropping later repeats while preserving relative order (the
components [A,B,A,C,B] become [A,B,C]); when the flag is unset the name is
used unmodified. -/
theorem claim_c7 :
    (∀ nodeName : Name,
        dataPrefixOf true nodeName = specFirstOccurrence nodeName ∧
          dataPrefixOf false nodeName = nodeName) ∧
      dataPrefixOf true
          [Component.str "A", Component.str "B", Component.str "A",
            Component.str "C", Component.str "B"] =
        [Component.str "A", Component.str "B", Component.str "C"] := by
  constructor
  · intro nodeName
    exact ⟨by simp [dataPrefixOf, specFirstOccurrence_eq_dedupe], rfl⟩
  · decide

/-- C4: for every inbound command payload that is malformed — fails to
parse, contains zero sync groups, or contains any group without a sync
prefix — the handler drops it with no side effect: no response is recorded,
no participant is created, no group record is persisted, and no prefix is
registered (the state is unchanged and the trace is empty). -/
theorem claim_c4 (env : Env) (st : HandleState) (msg : Bytes)
    (h : env.parseCommandParam msg = none ∨
      ∃ cmd, env.parseCommandParam msg = some cmd ∧ malformedCommand cmd = true) :
    onSyncMsg env st msg = (st, []) := by
  rcases h with h | ⟨cmd, h, hm⟩
  · simp [onSyncMsg, h]
  · simp [onSyncMsg, h, hm]

theorem claim_c4_witness :
    (envEmptyCmd.parseCommandParam [5] = none ∨
      ∃ cmd, envEmptyCmd.parseCommandParam [5] = some cmd ∧ malformedCommand cmd = true) ∧
      onSyncMsg envEmptyCmd handleInit [5] = (handleInit, []) :=
  ⟨Or.inr ⟨{ syncGroups := [] }, rfl, rfl⟩,
    claim_c4 envEmptyCmd handleInit [5] (Or.inr ⟨{ syncGroups := [] }, rfl, rfl⟩)⟩

/-- C5: for every fetched packet of the main range fetch, if its content
decodes as an inner data object whose payload is a name, a secondary fetch
of that name is invoked with range 0..unbounded, concurrency bound 10 and
the primitive's default retry and naming (absent arguments), and every
yielded segment is stored by name; if decoding fails the packet produces
zero secondary fetch events, no error escapes (the step still returns) and
the loop moves on. -/
theorem claim_c5 (env : Env) (svs : PassiveSvs) (nodeId : String) (gs : GroupStates)
    (pkt : Name × Bytes × Bytes) (ptr : Option Name)
    (h : env.decodePointer pkt.2.1 = ptr) :
    processPacket env svs nodeId gs pkt =
      (advancedGS svs nodeId gs (seqLast pkt.1),
        Event.storePacket pkt.1 pkt.2.2 ::
          Event.persistStates svs.basePrefix (advancedGS svs nodeId gs (seqLast pkt.1)) ::
            (match ptr with
             | none => []
             | some obj =>
                 Event.fetch obj 0 none 10 none none ::
                   (env.unbounded obj).map (fun s => Event.storePacket s.1 s.2.2))) := by
  cases ptr <;> simp [processPacket, pointerEvents, h, concurrentFetcher, advancedGS]

theorem claim_c5_witness :
    processPacket envPointer svsP7 "p" gsInit ([Component.str "x"], [7], [9]) =
      (advancedGS svsP7 "p" gsInit (seqLast [Component.str "x"]),
        Event.storePacket [Component.str "x"] [9] ::
          Event.persistStates svsP7.basePrefix
              (advancedGS svsP7 "p" gsInit (seqLast [Component.str "x"])) ::
            (Event.fetch [Component.str "obj"] 0 none 10 none none ::
              (envPointer.unbounded [Component.str "obj"]).map
                (fun s => Event.storePacket s.1 s.2.2))) :=
  claim_c5 envPointer svsP7 "p" gsInit ([Component.str "x"], [7], [9])
    (some [Component.str "obj"]) rfl

/-
Group-creation lemmas for C3 and C9.
-/

theorem registerEvents_cases (a b : Bool) (rp : Name) :
    registerEvents a b rp = [] ∨
      registerEvents a b rp = [Event.addRegisteredPrefix rp] ∨
        registerEvents a b rp = [Event.addRegisteredPrefix rp, Event.listen rp] := by
  unfold registerEvents
  by_cases h : rp ≠ ([] : Name)
  · rw [if_pos h]
    by_cases h2 : a = false ∧ b = false
    · rw [if_pos h2]
      right; right; rfl
    · rw [if_neg h2]
      right; left; rfl
  · rw [if_neg h]
    left; rfl

/-- Closed form of the group-creation branch of _process_sync's loop. -/
theorem processGroup_new (st : HandleState) (tr : List Event) (g : SyncParam)
    (habs : lookupKV st.statesOnDisk (Name.to_str g.syncPrefix) = none) :
    processGroup st tr g =
      ({ statesOnDisk := setKV st.statesOnDisk (Name.to_str g.syncPrefix) (newGroupStates g),
         mProcesses := st.mProcesses,
         registeredPrefixes :=
           if g.registerPrefix ≠ ([] : Name) ∧
               decide (g.registerPrefix ∈ st.registeredPrefixes) = false then
             st.registeredPrefixes ++ [g.registerPrefix]
           else st.registeredPrefixes,
         registerRoot := st.registerRoot },
        tr ++ Event.createParticipant { basePrefix := g.syncPrefix, localSv := [] }
            Callback.fetchMissingData ::
          Event.startParticipant { basePrefix := g.syncPrefix, localSv := [] } ::
            (registerEvents st.registerRoot
                (decide (g.registerPrefix ∈ st.registeredPrefixes)) g.registerPrefix ++
              [Event.addSyncGroup g.syncPrefix,
                Event.persistStates g.syncPrefix (newGroupStates g)])) := by
  simp [processGroup, habs, setKV_setKV, PassiveSvs.encodeIntoStates, newGroupStates]
  by_cases hr : ¬g.registerPrefix = [] ∧ g.registerPrefix ∉ st.registeredPrefixes <;>
    simp [hr, setKV_setKV]

theorem processSync_single (st : HandleState) (g : SyncParam) (req : Bytes) :
    processSync st [g] req =
      processGroup
        { st with mProcesses := setKV st.mProcesses req (statFor [g]) }
        [Event.recordResponse req (statFor [g])] g := rfl

/-- C3: submitting a sync-group descriptor whose normalized syncPrefix
already exists in the group table is a no-op for that group — no new
participant, no state overwrite, no storage or registration event; and
across two submissions of the same fresh prefix there is exactly one
participant creation and one persisted record, the second submission
changing neither the group table nor the registered prefixes and emitting
nothing but its cached response. -/
theorem claim_c3 :
    (∀ (st : HandleState) (tr : List Event) (g : SyncParam),
        (lookupKV st.statesOnDisk (Name.to_str g.syncPrefix)).isSome = true →
          processGroup st tr g = (st, tr)) ∧
      ∀ (st : HandleState) (g : SyncParam) (req1 req2 : Bytes),
        lookupKV st.statesOnDisk (Name.to_str g.syncPrefix) = none →
          (processSync (processSync st [g] req1).1 [g] req2).1.statesOnDisk =
              (processSync st [g] req1).1.statesOnDisk ∧
            (processSync (processSync st [g] req1).1 [g] req2).1.registeredPrefixes =
              (processSync st [g] req1).1.registeredPrefixes ∧
            (processSync (processSync st [g] req1).1 [g] req2).2.filter Event.isSideEffect
              = [] ∧
            (((processSync st [g] req1).2 ++
                (processSync (processSync st [g] req1).1 [g] req2).2).filter
                  Event.isCreate).length = 1 ∧
            (persistsFor (Name.to_str g.syncPrefix)
                ((processSync st [g] req1).2 ++
                  (processSync (processSync st [g] req1).1 [g] req2).2)).length = 1 := by
  have skip : ∀ (st : HandleState) (tr : List Event) (g : SyncParam),
      (lookupKV st.statesOnDisk (Name.to_str g.syncPrefix)).isSome = true →
        processGroup st tr g = (st, tr) := by
    intro st tr g hdup
    simp [processGroup, hdup]
  refine ⟨skip, ?_⟩
  intro st g req1 req2 habs
  rcases registerEvents_cases st.registerRoot
      (decide (g.registerPrefix ∈ st.registeredPrefixes)) g.registerPrefix
    with h | h | h <;>
    simp [processSync_single, processGroup_new, skip, habs, lookupKV_setKV_self, h,
      persistsFor, Event.isCreate, Event.isSideEffect]

theorem claim_c3_witness :
    processGroup handleDup [] gSimple = (handleDup, []) ∧
      (processSync (processSync handleInit [gSimple] [1]).1 [gSimple] [2]).1.statesOnDisk =
          (processSync handleInit [gSimple] [1]).1.statesOnDisk ∧
        (processSync (processSync handleInit [gSimple] [1]).1 [gSimple]
              [2]).1.registeredPrefixes =
          (processSync handleInit [gSimple] [1]).1.registeredPrefixes ∧
        (processSync (processSync handleInit [gSimple] [1]).1 [gSimple]
            [2]).2.filter Event.isSideEffect = [] ∧
        (((processSync handleInit [gSimple] [1]).2 ++
            (processSync (processSync handleInit [gSimple] [1]).1 [gSimple]
              [2]).2).filter Event.isCreate).length = 1 ∧
        (persistsFor (Name.to_str gSimple.syncPrefix)
            ((processSync handleInit [gSimple] [1]).2 ++
              (processSync (processSync handleInit [gSimple] [1]).1 [gSimple]
                [2]).2)).length = 1 :=
  ⟨claim_c3.1 handleDup [] gSimple (by decide),
    claim_c3.2 handleInit gSimple [1] [2] (by decide)⟩

/-
Command-intake lemmas for C9.
-/

theorem processGroup_mProcesses (st : HandleState) (tr : List Event) (g : SyncParam) :
    (processGroup st tr g).1.mProcesses = st.mProcesses := by
  by_cases hd : (lookupKV st.statesOnDisk (Name.to_str g.syncPrefix)).isSome = true
  · simp [processGroup, hd]
  · by_cases hr : ¬g.registerPrefix = [] ∧ g.registerPrefix ∉ st.registeredPrefixes <;>
      simp [processGroup, hd, hr]

theorem processGroup_trace_prefix (st : HandleState) (tr : List Event) (g : SyncParam) :
    ∃ tail, (processGroup st tr g).2 = tr ++ tail := by
  by_cases hd : (lookupKV st.statesOnDisk (Name.to_str g.syncPrefix)).isSome = true
  · exact ⟨[], by simp [processGroup, hd]⟩
  · refine ⟨Event.createParticipant { basePrefix := g.syncPrefix, localSv := [] }
        Callback.fetchMissingData ::
          Event.startParticipant { basePrefix := g.syncPrefix, localSv := [] } ::
            (registerEvents st.registerRoot
                (decide (g.registerPrefix ∈ st.registeredPrefixes)) g.registerPrefix ++
              [Event.addSyncGroup g.syncPrefix,
                Event.persistStates g.syncPrefix
                  { fetchedDict := [], svsClientStates := [],
                    dataNameDedupe := g.dataNameDedupe, checkStatus := [] }]), ?_⟩
    simp [processGroup, hd, PassiveSvs.encodeIntoStates]

theorem foldGroups_facts (groups : List SyncParam) :
    ∀ (st : HandleState) (tr : List Event),
      (groups.foldl (fun acc g => processGroup acc.1 acc.2 g) (st, tr)).1.mProcesses =
          st.mProcesses ∧
        ∃ tail, (groups.foldl (fun acc g => processGroup acc.1 acc.2 g) (st, tr)).2 =
          tr ++ tail := by
  induction groups with
  | nil => intro st tr; exact ⟨rfl, [], by simp⟩
  | cons g t ih =>
      intro st tr
      rw [List.foldl_cons]
      obtain ⟨hm, tail1, htail1⟩ :=
        ih (processGroup st tr g).1 (processGroup st tr g).2
      obtain ⟨tail0, htail0⟩ := processGroup_trace_prefix st tr g
      refine ⟨by rw [hm, processGroup_mProcesses], tail0 ++ tail1, ?_⟩
      rw [htail1, htail0, List.append_assoc]

/-- C9: for every successfully parsed command, the handler computes the
request id as the sha256 digest of the raw payload bytes and records,
keyed by that digest and ahead of all group-creation events, an in-memory
response whose overall status is IN_PROGRESS and which has one entry per
group descriptor with status code ROGER and insert count 0. -/
theorem claim_c9 (env : Env) (st : HandleState) (msg : Bytes) (cmd : RepoCommandParam)
    (hp : env.parseCommandParam msg = some cmd) (hm : malformedCommand cmd = false) :
    ∃ tail,
      (onSyncMsg env st msg).2 =
          Event.recordResponse (env.sha256 msg) (statFor cmd.syncGroups) :: tail ∧
        lookupKV (onSyncMsg env st msg).1.mProcesses (env.sha256 msg) =
          some (statFor cmd.syncGroups) ∧
        (statFor cmd.syncGroups).statusCode = RepoStatCode.IN_PROGRESS ∧
        (statFor cmd.syncGroups).syncGroups = cmd.syncGroups.map (fun g =>
          { name := g.syncPrefix, statusCode := RepoStatCode.ROGER, insertNum := 0 }) := by
  have he : onSyncMsg env st msg = processSync st cmd.syncGroups (env.sha256 msg) := by
    simp [onSyncMsg, hp, hm]
  obtain ⟨hmp, tail, htail⟩ := foldGroups_facts cmd.syncGroups
    { st with mProcesses := setKV st.mProcesses (env.sha256 msg) (statFor cmd.syncGroups) }
    [Event.recordResponse (env.sha256 msg) (statFor cmd.syncGroups)]
  refine ⟨tail, ?_, ?_, rfl, rfl⟩
  · rw [he]
    exact htail
  · rw [he]
    have hmp' : (processSync st cmd.syncGroups (env.sha256 msg)).1.mProcesses =
        setKV st.mProcesses (env.sha256 msg) (statFor cmd.syncGroups) := hmp
    rw [hmp']
    exact lookupKV_setKV_self _ _ _

theorem claim_c9_witness :
    envOneCmd.parseCommandParam [3] = some { syncGroups := [gSimple] } ∧
      ∃ tail,
        (onSyncMsg envOneCmd handleInit [3]).2 =
            Event.recordResponse (envOneCmd.sha256 [3]) (statFor [gSimple]) :: tail ∧
          lookupKV (onSyncMsg envOneCmd handleInit [3]).1.mProcesses
              (envOneCmd.sha256 [3]) = some (statFor [gSimple]) ∧
          (statFor [gSimple]).statusCode = RepoStatCode.IN_PROGRESS ∧
          (statFor [gSimple]).syncGroups = [gSimple].map (fun g =>
            { name := g.syncPrefix, statusCode := RepoStatCode.ROGER, insertNum := 0 }) :=
  ⟨rfl, claim_c9 envOneCmd handleInit [3] { syncGroups := [gSimple] } rfl rfl⟩

/-
Recovery lemmas for C10.
-/

theorem foldl_append_mem {α β : Type} (f : α → List β) :
    ∀ (l : List α) (tr0 : List β) (x : β),
      (x ∈ l.foldl (fun tr a => tr ++ f a) tr0 ↔ x ∈ tr0 ∨ ∃ a ∈ l, x ∈ f a) := by
  intro l
  induction l with
  | nil => intro tr0 x; simp
  | cons b t ih =>
      intro tr0 x
      rw [List.foldl_cons, ih (tr0 ++ f b) x]
      simp only [List.mem_append, List.mem_cons]
      constructor
      · rintro ((hx | hx) | ⟨a, ha, hx⟩)
        · exact Or.inl hx
        · exact Or.inr ⟨b, Or.inl rfl, hx⟩
        · exact Or.inr ⟨a, Or.inr ha, hx⟩
      · rintro (hx | ⟨a, ha | ha, hx⟩)
        · exact Or.inl (Or.inl hx)
        · subst ha; exact Or.inl (Or.inr hx)
        · exact Or.inr ⟨a, ha, hx⟩

/-- C10: recovery is fetch-free and write-free — recover_from_states
installs the persisted map verbatim (so every record's fetchedSeq map is
unchanged), touches neither the response cache nor the registered
prefixes, emits no fetch invocation and no storage write, and for every
persisted record creates a participant rebuilt from the record's saved
participant state with the fetch_missing_data advancement callback and
starts it; fetching can begin only when that callback later fires. -/
theorem claim_c10 (st : HandleState) (states : StatesMap) :
    (recoverFromStates st states).1.statesOnDisk = states ∧
      (recoverFromStates st states).1.mProcesses = st.mProcesses ∧
      (recoverFromStates st states).1.registeredPrefixes = st.registeredPrefixes ∧
      (∀ e ∈ (recoverFromStates st states).2,
        Event.isFetch e = false ∧ Event.isStorageWrite e = false) ∧
      ∀ kv ∈ states,
        Event.createParticipant
            { basePrefix := Name.from_str kv.1, localSv := kv.2.svsClientStates }
            Callback.fetchMissingData ∈ (recoverFromStates st states).2 ∧
          Event.startParticipant
              { basePrefix := Name.from_str kv.1, localSv := kv.2.svsClientStates } ∈
            (recoverFromStates st states).2 := by
  refine ⟨rfl, rfl, rfl, ?_, ?_⟩
  · intro e he
    rw [show (recoverFromStates st states).2 =
        states.foldl (fun tr kv => tr ++ recoverGroup kv) [] from rfl] at he
    rw [foldl_append_mem recoverGroup states [] e] at he
    rcases he with he | ⟨kv, _, he⟩
    · simp at he
    · rcases (by simpa [recoverGroup] using he : _ ∨ _) with he | he <;>
        subst he <;> exact ⟨rfl, rfl⟩
  · intro kv hkv
    constructor <;>
    · rw [show (recoverFromStates st states).2 =
          states.foldl (fun tr kv => tr ++ recoverGroup kv) [] from rfl]
      rw [foldl_append_mem recoverGroup states []]
      exact Or.inr ⟨kv, hkv, by
        simp [recoverGroup, PassiveSvs.decodeFromStates]⟩

/-
Store-before-bookkeeping lemmas for C6.
-/

theorem persistsOk_append (enc : List (String × Nat)) (t1 t2 : List Event)
    (h1 : PersistsOk enc t1) (h2 : PersistsOk enc t2) : PersistsOk enc (t1 ++ t2) := by
  induction h1 with
  | nil => simpa using h2
  | consSafe e tr he _ ih =>
      rw [List.cons_append]
      exact PersistsOk.consSafe e _ he ih
  | consPair n b base gs tr hq henc _ ih =>
      rw [List.cons_append, List.cons_append]
      exact PersistsOk.consPair n b base gs _ hq henc ih

theorem persistsOk_of_no_persist (enc : List (String × Nat)) (tr : List Event)
    (h : ∀ e ∈ tr, Event.isPersist e = false) : PersistsOk enc tr := by
  induction tr with
  | nil => exact PersistsOk.nil
  | cons e t ih =>
      exact PersistsOk.consSafe e t (h e (List.mem_cons_self e t))
        (ih fun e' he' => h e' (List.mem_cons_of_mem e he'))

theorem persistsOk_seqTrace (env : Env) (svs : PassiveSvs) (nodeId : String)
    (gs : GroupStates) (dataPfx : Name) :
    ∀ n a, PersistsOk svs.encodeIntoStates (seqTrace env svs nodeId gs dataPfx a n) := by
  intro n
  induction n with
  | zero => intro a; exact PersistsOk.nil
  | succ n ih =>
      intro a
      show PersistsOk _ (Event.storePacket _ _ :: Event.persistStates _ _ :: _)
      refine PersistsOk.consPair _ _ _ _ _ ⟨nodeId, ?_⟩ rfl ?_
      · rw [seqLast_concat]
        exact lookupKV_setKV_self gs.fetchedDict nodeId a
      · exact persistsOk_append _ _ _
          (persistsOk_of_no_persist _ _ (pointerEvents_no_persist env _)) (ih (a + 1))

theorem processNode_persistsOk (env : Env) (svs : PassiveSvs) (m : StatesMap)
    (node : String × Nat) (r : StatesMap × List Event)
    (h : processNode env svs m node = some r) :
    PersistsOk svs.encodeIntoStates r.2 := by
  cases hgs : lookupKV m (Name.to_str svs.basePrefix) with
  | none => simp [processNode, hgs] at h
  | some gs =>
      rw [processNode_eq env svs m node gs hgs] at h
      by_cases hf : getKV gs.fetchedDict node.1 0 < node.2
      · rw [if_pos hf] at h
        obtain rfl : _ = r := Option.some.inj h
        exact PersistsOk.consSafe _ _ rfl (persistsOk_seqTrace env svs node.1 gs _ _ _)
      · rw [if_neg hf] at h
        obtain rfl : _ = r := Option.some.inj h
        exact PersistsOk.nil

theorem runNodes_persistsOk (env : Env) (svs : PassiveSvs) :
    ∀ (nodes : List (String × Nat)) (m : StatesMap) (tr0 : List Event)
      (m' : StatesMap) (tr' : List Event),
      runNodes env svs (some (m, tr0)) nodes = some (m', tr') →
      PersistsOk svs.encodeIntoStates tr0 → PersistsOk svs.encodeIntoStates tr' := by
  intro nodes
  induction nodes with
  | nil =>
      intro m tr0 m' tr' h h0
      rw [runNodes_nil] at h
      obtain ⟨-, rfl⟩ := Prod.mk.injEq .. ▸ Option.some.inj h
      exact h0
  | cons node rest ih =>
      intro m tr0 m' tr' h h0
      rw [runNodes_cons] at h
      cases hpn : processNode env svs m node with
      | none => rw [hpn] at h; cases h
      | some r =>
          rw [hpn] at h
          exact ih r.1 (tr0 ++ r.2) m' tr' h
            (persistsOk_append _ _ _ h0 (processNode_persistsOk env svs m node r hpn))

/-- C6: for every successfully fetched packet the pipeline stores the raw
bytes under the packet name first, and only afterwards advances fetchedSeq
and persists — in one write of the full group record — both the updated
progress and the re-exported participant state: every persist event of a
pass is immediately preceded by the store of the packet whose trailing
sequence number the persisted progress records, and carries the exported
participant state in the same record, so persisted progress is never ahead
of stored data. -/
theorem claim_c6 (env : Env) (svs : PassiveSvs) (m m' : StatesMap) (tr : List Event)
    (h : fetchMissingData env svs m = some (m', tr)) :
    PersistsOk svs.encodeIntoStates tr :=
  runNodes_persistsOk env svs svs.localSv m [] m' tr h PersistsOk.nil

theorem claim_c6_witness :
    PersistsOk svsP7.encodeIntoStates
      (Event.fetch [Component.str "p", Component.str "grp"] 4 (some 7) 10 (some (-1))
          (some IdNamingConv.SEQUENCE) ::
        seqTrace envBasic svsP7 "p" gsP3 [Component.str "p", Component.str "grp"] 4 4) :=
  claim_c6 envBasic svsP7 mapP3
    [("/grp", advancedGS svsP7 "p" gsP3 7)]
    (Event.fetch [Component.str "p", Component.str "grp"] 4 (some 7) 10 (some (-1))
        (some IdNamingConv.SEQUENCE) ::
      seqTrace envBasic svsP7 "p" gsP3 [Component.str "p", Component.str "grp"] 4 4)
    (by decide)

/-
Monotonicity lemmas for C2.
-/

theorem chain_append_last (v : Nat) (l1 l2 : List Nat)
    (h1 : List.Chain' (· ≤ ·) (v :: l1))
    (h2 : List.Chain' (· ≤ ·) (l1.getLastD v :: l2)) :
    List.Chain' (· ≤ ·) (v :: (l1 ++ l2)) ∧
      (l1 ++ l2).getLastD v = l2.getLastD (l1.getLastD v) := by
  induction l1 generalizing v with
  | nil => exact ⟨h2, rfl⟩
  | cons x t ih =>
      rw [List.getLastD_cons] at h2
      obtain ⟨hvx, h1'⟩ := List.chain'_cons.mp h1
      obtain ⟨hc, he⟩ := ih x h1' h2
      constructor
      · rw [List.cons_append]
        exact List.chain'_cons.mpr ⟨hvx, hc⟩
      · rw [List.cons_append, List.getLastD_cons, List.getLastD_cons, he]

theorem monoAt_refl (key p : String) (m : StatesMap) : MonoAt key p m m [] :=
  ⟨List.chain'_singleton _, rfl⟩

theorem monoAt_comp (key p : String) (m m1 m2 : StatesMap) (t1 t2 : List Event)
    (h1 : MonoAt key p m m1 t1) (h2 : MonoAt key p m1 m2 t2) :
    MonoAt key p m m2 (t1 ++ t2) := by
  obtain ⟨c1, e1⟩ := h1
  obtain ⟨c2, e2⟩ := h2
  rw [e1] at c2
  obtain ⟨hc, he⟩ := chain_append_last (initFetched m key p)
    (persistedVals key p t1) (persistedVals key p t2) c1 c2
  constructor
  · show List.Chain' (· ≤ ·) (initFetched m key p :: persistedVals key p (t1 ++ t2))
    rw [persistedVals_append]
    exact hc
  · show initFetched m2 key p =
      (persistedVals key p (t1 ++ t2)).getLastD (initFetched m key p)
    rw [persistedVals_append, he, ← e1]
    exact e2

theorem persistedVals_seqTrace (env : Env) (svs : PassiveSvs) (nodeId : String)
    (gs : GroupStates) (dataPfx : Name) (key p : String) :
    ∀ n a, persistedVals key p (seqTrace env svs nodeId gs dataPfx a n) =
      if Name.to_str svs.basePrefix = key then
        (seqIds a n).map (fun i => getKV (setKV gs.fetchedDict nodeId i) p 0)
      else [] := by
  intro n
  induction n with
  | zero => intro a; simp [seqTrace, seqIds, persistedVals]
  | succ n ih =>
      intro a
      show persistedVals key p
        (Event.storePacket _ _ :: Event.persistStates svs.basePrefix _ :: _) = _
      rw [persistedVals_cons_store, persistedVals_cons_persist,
        persistedVals_append,
        persistedVals_of_no_persist key p _ (pointerEvents_no_persist env _),
        ih (a + 1)]
      by_cases hk : Name.to_str svs.basePrefix = key <;>
        simp [hk, seqIds_succ, advancedGS]

theorem initFetched_setKV_ne (m : StatesMap) (key key' : String) (gs : GroupStates)
    (p : String) (h : key ≠ key') :
    initFetched (setKV m key' gs) key p = initFetched m key p := by
  rw [initFetched, initFetched, lookupKV_setKV_ne m key' key gs h]

theorem initFetched_setKV_self (m : StatesMap) (key : String) (gs : GroupStates)
    (p : String) : initFetched (setKV m key gs) key p = getKV gs.fetchedDict p 0 := by
  rw [initFetched, lookupKV_setKV_self]

theorem processNode_monoAt (env : Env) (svs : PassiveSvs) (m : StatesMap)
    (node : String × Nat) (m' : StatesMap) (tr' : List Event) (key p : String)
    (h : processNode env svs m node = some (m', tr')) : MonoAt key p m m' tr' := by
  cases hgs : lookupKV m (Name.to_str svs.basePrefix) with
  | none => simp [processNode, hgs] at h
  | some gs =>
      rw [processNode_eq env svs m node gs hgs] at h
      by_cases hf : getKV gs.fetchedDict node.1 0 < node.2
      · rw [if_pos hf] at h
        obtain ⟨rfl, rfl⟩ := Prod.mk.injEq .. ▸ Option.some.inj h
        have hvals : persistedVals key p
            (Event.fetch (dataPrefixOf gs.dataNameDedupe
                (Name.from_str node.1 ++ svs.basePrefix))
              (getKV gs.fetchedDict node.1 0 + 1) (some node.2) 10 (some (-1))
              (some IdNamingConv.SEQUENCE) ::
              seqTrace env svs node.1 gs
                (dataPrefixOf gs.dataNameDedupe (Name.from_str node.1 ++ svs.basePrefix))
                (getKV gs.fetchedDict node.1 0 + 1)
                (node.2 - getKV gs.fetchedDict node.1 0)) =
            if Name.to_str svs.basePrefix = key then
              (seqIds (getKV gs.fetchedDict node.1 0 + 1)
                  (node.2 - getKV gs.fetchedDict node.1 0)).map
                (fun i => getKV (setKV gs.fetchedDict node.1 i) p 0)
            else [] := by
          rw [persistedVals_cons_fetch, persistedVals_seqTrace]
        have hadv : (advancedGS svs node.1 gs node.2).fetchedDict =
            setKV gs.fetchedDict node.1 node.2 := rfl
        by_cases hk : Name.to_str svs.basePrefix = key
        · subst hk
          have hif : initFetched m (Name.to_str svs.basePrefix) p =
              getKV gs.fetchedDict p 0 := by
            simp [initFetched, hgs]
          rw [MonoAt, hvals, if_pos rfl, initFetched_setKV_self, hif, hadv]
          by_cases hp : p = node.1
          · subst hp
            rw [seqIds_map_id _ (fun i => getKV_setKV_self gs.fetchedDict node.1 i 0),
              getKV_setKV_self]
            constructor
            · exact chain_seqIds (node.2 - getKV gs.fetchedDict node.1 0) _
            · rw [show node.2 - getKV gs.fetchedDict node.1 0 =
                  (node.2 - getKV gs.fetchedDict node.1 0 - 1) + 1 from by omega,
                seqIds_getLastD]
              omega
          · rw [seqIds_map_const _ (getKV gs.fetchedDict p 0)
                (fun i => getKV_setKV_ne gs.fetchedDict node.1 p i 0 hp),
              getKV_setKV_ne gs.fetchedDict node.1 p node.2 0 hp]
            exact ⟨chain_cons_replicate _ _, (getLastD_replicate _ _).symm⟩
        · rw [MonoAt, hvals, if_neg hk,
            initFetched_setKV_ne m key (Name.to_str svs.basePrefix)
              (advancedGS svs node.1 gs node.2) p (fun hh => hk hh.symm)]
          exact ⟨List.chain'_singleton _, rfl⟩
      · rw [if_neg hf] at h
        obtain ⟨rfl, rfl⟩ := Prod.mk.injEq .. ▸ Option.some.inj h
        exact monoAt_refl key p m

theorem runNodes_monoAt (env : Env) (svs : PassiveSvs) (key p : String) :
    ∀ (nodes : List (String × Nat)) (m : StatesMap) (tr0 : List Event)
      (m' : StatesMap) (tr' : List Event),
      runNodes env svs (some (m, tr0)) nodes = some (m', tr') →
      ∃ trNew, tr' = tr0 ++ trNew ∧ MonoAt key p m m' trNew := by
  intro nodes
  induction nodes with
  | nil =>
      intro m tr0 m' tr' h
      rw [runNodes_nil] at h
      obtain ⟨rfl, rfl⟩ := Prod.mk.injEq .. ▸ Option.some.inj h
      exact ⟨[], by simp, monoAt_refl key p m⟩
  | cons node rest ih =>
      intro m tr0 m' tr' h
      rw [runNodes_cons] at h
      cases hpn : processNode env svs m node with
      | none => rw [hpn] at h; cases h
      | some r =>
          rw [hpn] at h
          obtain ⟨trNew, rfl, hmono⟩ := ih r.1 (tr0 ++ r.2) m' tr' h
          exact ⟨r.2 ++ trNew, by rw [List.append_assoc],
            monoAt_comp key p m r.1 m' r.2 trNew
              (processNode_monoAt env svs m node r.1 r.2 key p hpn) hmono⟩

theorem runPasses_none (env : Env) (passes : List PassiveSvs) :
    runPasses env none passes = none := by
  cases passes <;> rfl

theorem runPasses_cons (env : Env) (m : StatesMap) (tr0 : List Event)
    (svs : PassiveSvs) (rest : List PassiveSvs) :
    runPasses env (some (m, tr0)) (svs :: rest) =
      (match fetchMissingData env svs m with
       | none => none
       | some r => runPasses env (some (r.1, tr0 ++ r.2)) rest) := rfl

theorem runPasses_monoAt (env : Env) (key p : String) :
    ∀ (passes : List PassiveSvs) (m : StatesMap) (tr0 : List Event)
      (m' : StatesMap) (tr' : List Event),
      runPasses env (some (m, tr0)) passes = some (m', tr') →
      ∃ trNew, tr' = tr0 ++ trNew ∧ MonoAt key p m m' trNew := by
  intro passes
  induction passes with
  | nil =>
      intro m tr0 m' tr' h
      obtain ⟨rfl, rfl⟩ := Prod.mk.injEq .. ▸ Option.some.inj h
      exact ⟨[], by simp, monoAt_refl key p m⟩
  | cons svs rest ih =>
      intro m tr0 m' tr' h
      rw [runPasses_cons] at h
      cases hfd : fetchMissingData env svs m with
      | none => rw [hfd] at h; cases h
      | some r =>
          rw [hfd] at h
          obtain ⟨trNew, rfl, hmono⟩ := ih r.1 (tr0 ++ r.2) m' tr' h
          obtain ⟨trPass, htp, hmonoPass⟩ :=
            runNodes_monoAt env svs key p svs.localSv m [] r.1 r.2 hfd
          rw [List.nil_append] at htp
          subst htp
          exact ⟨r.2 ++ trNew, by rw [List.append_assoc],
            monoAt_comp key p m r.1 m' r.2 trNew hmonoPass hmono⟩

/-- C2: for every sync-group record and every producer, the recorded
fetchedSeq value is monotonically non-decreasing across any sequence of
sequential pipeline passes, including the per-packet advancement within a
pass: the chain of persisted values, starting from the initial recorded
value, never regresses. -/
theorem claim_c2 (env : Env) (passes : List PassiveSvs) (m m' : StatesMap)
    (tr : List Event) (key p : String)
    (h : runPasses env (some (m, [])) passes = some (m', tr)) :
    List.Chain' (· ≤ ·) (initFetched m key p :: persistedVals key p tr) := by
  obtain ⟨trNew, htr, hmono⟩ := runPasses_monoAt env key p passes m [] m' tr h
  rw [List.nil_append] at htr
  subst htr
  exact hmono.1

theorem claim_c2_witness :
    List.Chain' (· ≤ ·)
      (initFetched mapP3 "/grp" "p" ::
        persistedVals "/grp" "p"
          (Event.fetch [Component.str "p", Component.str "grp"] 4 (some 7) 10 (some (-1))
              (some IdNamingConv.SEQUENCE) ::
            seqTrace envBasic svsP7 "p" gsP3 [Component.str "p", Component.str "grp"] 4 4)) :=
  claim_c2 envBasic [svsP7, svsP7] mapP3
    [("/grp", advancedGS svsP7 "p" gsP3 7)]
    (Event.fetch [Component.str "p", Component.str "grp"] 4 (some 7) 10 (some (-1))
        (some IdNamingConv.SEQUENCE) ::
      seqTrace envBasic svsP7 "p" gsP3 [Component.str "p", Component.str "grp"] 4 4)
    "/grp" "p" (by decide)

/-
Per-producer range lemmas for C1.
-/

theorem seqTrace_no_range_fetch (env : Env) (svs : PassiveSvs) (nodeId : String)
    (gs : GroupStates) (dataPfx : Name) :
    ∀ n a, ∀ e ∈ seqTrace env svs nodeId gs dataPfx a n, Event.isRangeFetch e = false := by
  intro n
  induction n with
  | zero => intro a e he; simp [seqTrace] at he
  | succ n ih =>
      intro a e he
      simp only [seqTrace, List.mem_cons, List.mem_append] at he
      rcases he with rfl | rfl | he | he
      · rfl
      · rfl
      · exact pointerEvents_no_range_fetch env _ e he
      · exact ih (a + 1) e he

theorem processNode_pair_eq (env : Env) (svs : PassiveSvs) (m : StatesMap)
    (p : String) (s : Nat) (gs : GroupStates)
    (hgs : lookupKV m (Name.to_str svs.basePrefix) = some gs) :
    processNode env svs m (p, s) =
      (if getKV gs.fetchedDict p 0 < s then
        some (setKV m (Name.to_str svs.basePrefix) (advancedGS svs p gs s),
          Event.fetch (dataPrefixOf gs.dataNameDedupe (Name.from_str p ++ svs.basePrefix))
              (getKV gs.fetchedDict p 0 + 1) (some s) 10 (some (-1))
              (some IdNamingConv.SEQUENCE) ::
            seqTrace env svs p gs
              (dataPrefixOf gs.dataNameDedupe (Name.from_str p ++ svs.basePrefix))
              (getKV gs.fetchedDict p 0 + 1) (s - getKV gs.fetchedDict p 0))
      else some (m, [])) :=
  processNode_eq env svs m (p, s) gs hgs

/-- Nodes for other producers preserve the group's presence, its dedupe
flag and this producer's progress entry, and only append to the trace. -/
theorem runNodes_frame (env : Env) (svs : PassiveSvs) (p : String) :
    ∀ (nodes : List (String × Nat)) (m : StatesMap) (tr0 : List Event) (gs : GroupStates),
      (∀ nd ∈ nodes, nd.1 ≠ p) →
      lookupKV m (Name.to_str svs.basePrefix) = some gs →
      ∃ m' trNew gs',
        runNodes env svs (some (m, tr0)) nodes = some (m', tr0 ++ trNew) ∧
          lookupKV m' (Name.to_str svs.basePrefix) = some gs' ∧
          gs'.dataNameDedupe = gs.dataNameDedupe ∧
          getKV gs'.fetchedDict p 0 = getKV gs.fetchedDict p 0 := by
  intro nodes
  induction nodes with
  | nil =>
      intro m tr0 gs _ hgs
      exact ⟨m, [], gs, by simp [runNodes_nil], hgs, rfl, rfl⟩
  | cons nd rest ih =>
      intro m tr0 gs hne hgs
      have hp : p ≠ nd.1 := fun hh => hne nd (List.mem_cons_self nd rest) hh.symm
      by_cases hf : getKV gs.fetchedDict nd.1 0 < nd.2
      · obtain ⟨m', trNew, gs', hrun, hgs', hflag, hfd⟩ :=
          ih (setKV m (Name.to_str svs.basePrefix) (advancedGS svs nd.1 gs nd.2))
            (tr0 ++ (Event.fetch (dataPrefixOf gs.dataNameDedupe
                (Name.from_str nd.1 ++ svs.basePrefix))
              (getKV gs.fetchedDict nd.1 0 + 1) (some nd.2) 10 (some (-1))
              (some IdNamingConv.SEQUENCE) ::
              seqTrace env svs nd.1 gs
                (dataPrefixOf gs.dataNameDedupe (Name.from_str nd.1 ++ svs.basePrefix))
                (getKV gs.fetchedDict nd.1 0 + 1) (nd.2 - getKV gs.fetchedDict nd.1 0)))
            (advancedGS svs nd.1 gs nd.2)
            (fun nd' h' => hne nd' (List.mem_cons_of_mem nd h'))
            (lookupKV_setKV_self _ _ _)
        rw [show (advancedGS svs nd.1 gs nd.2).fetchedDict =
            setKV gs.fetchedDict nd.1 nd.2 from rfl] at hfd
        refine ⟨m', (Event.fetch (dataPrefixOf gs.dataNameDedupe
            (Name.from_str nd.1 ++ svs.basePrefix))
          (getKV gs.fetchedDict nd.1 0 + 1) (some nd.2) 10 (some (-1))
          (some IdNamingConv.SEQUENCE) ::
          seqTrace env svs nd.1 gs
            (dataPrefixOf gs.dataNameDedupe (Name.from_str nd.1 ++ svs.basePrefix))
            (getKV gs.fetchedDict nd.1 0 + 1) (nd.2 - getKV gs.fetchedDict nd.1 0)) ++ trNew,
          gs', ?_, hgs', by rw [hflag]; rfl, ?_⟩
        · rw [runNodes_cons, processNode_eq env svs m nd gs hgs, if_pos hf]
          rw [List.append_assoc] at hrun
          exact hrun
        · rw [hfd]
          exact getKV_setKV_ne gs.fetchedDict nd.1 p nd.2 0 hp
      · obtain ⟨m', trNew, gs', hrun, hgs', hflag, hfd⟩ :=
          ih m tr0 gs (fun nd' h' => hne nd' (List.mem_cons_of_mem nd h')) hgs
        refine ⟨m', trNew, gs', ?_, hgs', hflag, hfd⟩
        rw [runNodes_cons, processNode_eq env svs m nd gs hgs, if_neg hf]
        show runNodes env svs (some (m, tr0 ++ [])) rest = some (m', tr0 ++ trNew)
        rw [List.append_nil]
        exact hrun

/-- C1: for every producer in the pass's snapshot — with the snapshot's
other entries belonging to other producers and the group record present —
if the recorded fetchedSeq (default 0) already reaches the advertised
sequence the pass issues no event at all for that producer; otherwise its
slice of the pass trace is exactly one fetch-primitive invocation for the
inclusive range fetchedSeq+1 .. advertised with sequence-indexed naming,
semaphore bound 10 and max_retries -1, followed by the in-order per-packet
deliveries of exactly that range, and after the pass the recorded
fetchedSeq equals the advertised sequence. -/
theorem claim_c1 (env : Env) (svs : PassiveSvs) (m : StatesMap) (gs : GroupStates)
    (p : String) (s : Nat) (pre post : List (String × Nat))
    (hsv : svs.localSv = pre ++ (p, s) :: post)
    (hpre : ∀ nd ∈ pre, nd.1 ≠ p) (hpost : ∀ nd ∈ post, nd.1 ≠ p)
    (hgs : lookupKV m (Name.to_str svs.basePrefix) = some gs) :
    ∃ m' trPre trP trPost,
      fetchMissingData env svs m = some (m', trPre ++ (trP ++ trPost)) ∧
        (s ≤ getKV gs.fetchedDict p 0 →
          trP = [] ∧
            initFetched m' (Name.to_str svs.basePrefix) p = getKV gs.fetchedDict p 0) ∧
        (getKV gs.fetchedDict p 0 < s →
          (∃ gs1, gs1.dataNameDedupe = gs.dataNameDedupe ∧
              getKV gs1.fetchedDict p 0 = getKV gs.fetchedDict p 0 ∧
              trP = Event.fetch
                  (dataPrefixOf gs.dataNameDedupe (Name.from_str p ++ svs.basePrefix))
                  (getKV gs.fetchedDict p 0 + 1) (some s) 10 (some (-1))
                  (some IdNamingConv.SEQUENCE) ::
                seqTrace env svs p gs1
                  (dataPrefixOf gs.dataNameDedupe (Name.from_str p ++ svs.basePrefix))
                  (getKV gs.fetchedDict p 0 + 1) (s - getKV gs.fetchedDict p 0)) ∧
            trP.filter Event.isRangeFetch =
              [Event.fetch
                (dataPrefixOf gs.dataNameDedupe (Name.from_str p ++ svs.basePrefix))
                (getKV gs.fetchedDict p 0 + 1) (some s) 10 (some (-1))
                (some IdNamingConv.SEQUENCE)] ∧
            initFetched m' (Name.to_str svs.basePrefix) p = s) := by
  obtain ⟨m1, trPre, gs1, hrun1, hgs1, hflag1, hfd1⟩ :=
    runNodes_frame env svs p pre m [] gs hpre hgs
  rw [List.nil_append] at hrun1
  have hstep : fetchMissingData env svs m =
      runNodes env svs (some (m1, trPre)) ((p, s) :: post) := by
    show runNodes env svs (some (m, [])) svs.localSv = _
    rw [hsv, runNodes_append, hrun1]
  by_cases hf : getKV gs.fetchedDict p 0 < s
  · have hf1 : getKV gs1.fetchedDict p 0 < s := by rw [hfd1]; exact hf
    obtain ⟨m', trPost, gs2, hrun2, hgs2, hflag2, hfd2⟩ :=
      runNodes_frame env svs p post
        (setKV m1 (Name.to_str svs.basePrefix) (advancedGS svs p gs1 s))
        (trPre ++ (Event.fetch (dataPrefixOf gs1.dataNameDedupe
            (Name.from_str p ++ svs.basePrefix))
          (getKV gs1.fetchedDict p 0 + 1) (some s) 10 (some (-1))
          (some IdNamingConv.SEQUENCE) ::
          seqTrace env svs p gs1
            (dataPrefixOf gs1.dataNameDedupe (Name.from_str p ++ svs.basePrefix))
            (getKV gs1.fetchedDict p 0 + 1) (s - getKV gs1.fetchedDict p 0)))
        (advancedGS svs p gs1 s) hpost (lookupKV_setKV_self _ _ _)
    have hstep2 : fetchMissingData env svs m =
        some (m', (trPre ++ (Event.fetch (dataPrefixOf gs1.dataNameDedupe
            (Name.from_str p ++ svs.basePrefix))
          (getKV gs1.fetchedDict p 0 + 1) (some s) 10 (some (-1))
          (some IdNamingConv.SEQUENCE) ::
          seqTrace env svs p gs1
            (dataPrefixOf gs1.dataNameDedupe (Name.from_str p ++ svs.basePrefix))
            (getKV gs1.fetchedDict p 0 + 1) (s - getKV gs1.fetchedDict p 0))) ++ trPost) := by
      rw [hstep, runNodes_cons, processNode_pair_eq env svs m1 p s gs1 hgs1, if_pos hf1]
      exact hrun2
    rw [List.append_assoc] at hstep2
    rw [hflag1, hfd1] at hstep2
    refine ⟨m', trPre, _, trPost, hstep2, ?_, ?_⟩
    · intro hle
      exact absurd hle (not_le.mpr hf)
    · intro _
      have hrest : (seqTrace env svs p gs1
          (dataPrefixOf gs.dataNameDedupe (Name.from_str p ++ svs.basePrefix))
          (getKV gs.fetchedDict p 0 + 1)
          (s - getKV gs.fetchedDict p 0)).filter Event.isRangeFetch = [] :=
        filter_rangeFetch_of_none _ (seqTrace_no_range_fetch env svs p gs1 _ _ _)
      refine ⟨⟨gs1, hflag1, hfd1, rfl⟩, ?_, ?_⟩
      · rw [List.filter_cons]
        simp [hrest, Event.isRangeFetch]
      · simp only [initFetched, hgs2]
        rw [hfd2]
        exact getKV_setKV_self gs1.fetchedDict p s 0
  · obtain ⟨m', trPost, gs2, hrun2, hgs2, hflag2, hfd2⟩ :=
      runNodes_frame env svs p post m1 (trPre ++ []) gs1 hpost hgs1
    rw [List.append_nil] at hrun2
    have hstep2 : fetchMissingData env svs m = some (m', trPre ++ ([] ++ trPost)) := by
      rw [List.nil_append]
      rw [hstep, runNodes_cons, processNode_pair_eq env svs m1 p s gs1 hgs1,
        if_neg (by rw [hfd1]; exact hf)]
      show runNodes env svs (some (m1, trPre ++ [])) post = some (m', trPre ++ trPost)
      rw [List.append_nil]
      exact hrun2
    refine ⟨m', trPre, [], trPost, hstep2, ?_, ?_⟩
    · intro _
      refine ⟨rfl, ?_⟩
      simp only [initFetched, hgs2]
      rw [hfd2, hfd1]
    · intro hlt
      exact absurd hlt hf

theorem claim_c1_witness :
    ∃ m' trPre trP trPost,
      fetchMissingData envBasic svsP7 mapP3 = some (m', trPre ++ (trP ++ trPost)) ∧
        (7 ≤ getKV gsP3.fetchedDict "p" 0 →
          trP = [] ∧
            initFetched m' (Name.to_str svsP7.basePrefix) "p" =
              getKV gsP3.fetchedDict "p" 0) ∧
        (getKV gsP3.fetchedDict "p" 0 < 7 →
          (∃ gs1, gs1.dataNameDedupe = gsP3.dataNameDedupe ∧
              getKV gs1.fetchedDict "p" 0 = getKV gsP3.fetchedDict "p" 0 ∧
              trP = Event.fetch
                  (dataPrefixOf gsP3.dataNameDedupe
                    (Name.from_str "p" ++ svsP7.basePrefix))
                  (getKV gsP3.fetchedDict "p" 0 + 1) (some 7) 10 (some (-1))
                  (some IdNamingConv.SEQUENCE) ::
                seqTrace envBasic svsP7 "p" gs1
                  (dataPrefixOf gsP3.dataNameDedupe
                    (Name.from_str "p" ++ svsP7.basePrefix))
                  (getKV gsP3.fetchedDict "p" 0 + 1)
                  (7 - getKV gsP3.fetchedDict "p" 0)) ∧
            trP.filter Event.isRangeFetch =
              [Event.fetch
                (dataPrefixOf gsP3.dataNameDedupe
                  (Name.from_str "p" ++ svsP7.basePrefix))
                (getKV gsP3.fetchedDict "p" 0 + 1) (some 7) 10 (some (-1))
                (some IdNamingConv.SEQUENCE)] ∧
            initFetched m' (Name.to_str svsP7.basePrefix) "p" = 7) :=
  claim_c1 envBasic svsP7 mapP3 gsP3 "p" 7 [] [] rfl
    (by simp) (by simp) (by decide)

/-- C8 refutation evidence: the advancement callback (lines 54 and 103)
wraps every firing in aio.create_task with no per-group guard, so two
fetch_missing_data passes for the same group can interleave at their await
points.  Evaluating the interleaved semantics: pass one (snapshot p:4)
reads fetchedSeq 0 and fetches 1..4; after its first delivery pass two
(snapshot p:7) reads fetchedSeq 1 and fetches 2..7 to completion; pass one
then resumes.  Both passes issue range fetches overlapping on 2..4, and
the persisted fetchedSeq sequence regresses from 7 back to 2, which is
also the final recorded value — so passes are not serialized and do race
on fetchedSeq for the same producer. -/
theorem claim_c8 :
    (runInterleaved envBasic svsAdv4 svsAdv7 gsInit
          (PassSt.ready svsAdv4.localSv) (PassSt.ready svsAdv7.localSv)
          schedRace).2.filter Event.isRangeFetch =
        [Event.fetch [Component.str "p", Component.str "grp"] 1 (some 4) 10 (some (-1))
            (some IdNamingConv.SEQUENCE),
          Event.fetch [Component.str "p", Component.str "grp"] 2 (some 7) 10 (some (-1))
            (some IdNamingConv.SEQUENCE)] ∧
      persistedVals "/grp" "p"
          (runInterleaved envBasic svsAdv4 svsAdv7 gsInit
            (PassSt.ready svsAdv4.localSv) (PassSt.ready svsAdv7.localSv)
            schedRace).2 = [1, 2, 3, 4, 5, 6, 7, 2] ∧
      ¬ List.Chain' (· ≤ ·)
          (0 :: persistedVals "/grp" "p"
            (runInterleaved envBasic svsAdv4 svsAdv7 gsInit
              (PassSt.ready svsAdv4.localSv) (PassSt.ready svsAdv7.localSv)
              schedRace).2) ∧
      getKV (runInterleaved envBasic svsAdv4 svsAdv7 gsInit
          (PassSt.ready svsAdv4.localSv) (PassSt.ready svsAdv7.localSv)
          schedRace).1.fetchedDict "p" 0 = 2 := by
  refine ⟨by decide, by decide, ?_, by decide⟩
  intro hch
  rw [show persistedVals "/grp" "p"
      (runInterleaved envBasic svsAdv4 svsAdv7 gsInit
        (PassSt.ready svsAdv4.localSv) (PassSt.ready svsAdv7.localSv)
        schedRace).2 = [1, 2, 3, 4, 5, 6, 7, 2] from by decide] at hch
  simp [List.chain'_cons] at hch

theorem claim_c10_witness :
    (recoverFromStates handleInit mapP3).1.statesOnDisk = mapP3 ∧
      Event.createParticipant
          { basePrefix := Name.from_str "/grp", localSv := gsP3.svsClientStates }
          Callback.fetchMissingData ∈ (recoverFromStates handleInit mapP3).2 :=
  ⟨(claim_c10 handleInit mapP3).1,
    ((claim_c10 handleInit mapP3).2.2.2.2 ("/grp", gsP3)
      (List.mem_singleton.mpr rfl)).1⟩

end NDNRepo
